import Mathlib

/-!
Verification of the module-coverage core of `mag_annotator/summarize_genomes.py`
(DRAM). The Python functions `build_module_net`, `get_module_coverage`,
`summarize_rrnas` and the gene-join part of `make_module_coverage_df` are
shallowly embedded below. Python sets are modelled as deduplicated lists,
pandas NaN cells as `Option`, and the Python runtime values appearing in the
buggy comparison `module_path[0] == 0` (a one-character string against the
integer `0`) resp. the lookup key in `genome_rrna_dict[genome].get(type, 0)`
(the builtin `type`) are modelled by the small universe `PyVal`, whose
equality mirrors Python `==` across types.
-/

/-- Boolean code-point comparison on characters, the order Python uses when
comparing strings. -/
def charLeB (a b : Char) : Bool := decide (a ≤ b)

/-- Lexicographic comparison of character lists, mirroring Python string
comparison. -/
def charListLeB : List Char → List Char → Bool
  | [], _ => true
  | _ :: _, [] => false
  | a :: as, b :: bs => if a = b then charListLeB as bs else charLeB a b

/-- Lexicographic string comparison as a Bool. -/
def strLeB (a b : String) : Bool := charListLeB a.toList b.toList

/-- Lexicographic string order used by Python `sorted` / pandas groupby key
order. -/
def strLe (a b : String) : Prop := strLeB a b = true

instance : DecidableRel strLe := fun a b => instDecidableEqBool (strLeB a b) true

/-- Python `str.split(sep)` on character lists (single-character separator,
keeps empty pieces, `"".split(sep) == [""]`). -/
def splitListOn (sep : Char) : List Char → List (List Char)
  | [] => [[]]
  | c :: rest =>
    if c = sep then [] :: splitListOn sep rest
    else
      match splitListOn sep rest with
      | [] => [[c]]
      | h :: t => (c :: h) :: t

/-- Python `s.split(sep)` for strings. -/
def pySplit (s : String) (sep : Char) : List String :=
  (splitListOn sep s.toList).map (fun l => String.mk l)

/-- Value of a list of decimal digits. -/
def digitsVal (l : List Char) : Nat := l.foldl (fun n c => 10 * n + (c.toNat - 48)) 0

/-- Python `int(s)` restricted to optionally negated decimal literals;
`none` models the `ValueError` raised on anything else. -/
def parseIntPy (s : String) : Option Int :=
  match s.toList with
  | [] => none
  | '-' :: rest =>
      if !rest.isEmpty && rest.all Char.isDigit then some (-(digitsVal rest : Int)) else none
  | l => if l.all Char.isDigit then some ((digitsVal l : Int)) else none

/-- Decimal digits of a natural number (fuel-based so that it reduces). -/
def natDigits : Nat → Nat → List Char
  | 0, _ => []
  | fuel + 1, n =>
      if n < 10 then [Char.ofNat (48 + n)]
      else natDigits fuel (n / 10) ++ [Char.ofNat (48 + n % 10)]

/-- Decimal rendering of a natural number, as Python `str` does. -/
def natToStr (n : Nat) : String := String.mk (natDigits (n + 1) n)

/-- Decimal rendering of an integer, as Python `'%s' % i` does. -/
def intToStr : Int → String
  | Int.ofNat n => natToStr n
  | Int.negSucc m => "-" ++ natToStr (m + 1)

/-- Python `s[0]` as a one-character string (empty string for empty `s`). -/
def pyHeadChar (s : String) : String := String.mk (s.toList.take 1)

/-- Whether `pat` occurs as a contiguous sublist of `s`. -/
def isInfixList (pat : List Char) : List Char → Bool
  | [] => pat.isEmpty
  | c :: t => pat.isPrefixOf (c :: t) || isInfixList pat t

/-- Python `pat in s` substring test. -/
def strContainsB (s pat : String) : Bool := isInfixList pat.toList s.toList

/-- The Python runtime values compared in the source: strings, integers and
the builtin `type`. Mirrors that Python `==` between distinct builtin types
is `False`. -/
inductive PyVal where
  | vstr (s : String)
  | vint (n : Int)
  | vtype
deriving DecidableEq

/-- Python `==` on `PyVal`: values of different builtin types are unequal. -/
def pyEq : PyVal → PyVal → Bool
  | PyVal.vstr a, PyVal.vstr b => a == b
  | PyVal.vint a, PyVal.vint b => a == b
  | PyVal.vtype, PyVal.vtype => true
  | _, _ => false

/-- One row of the module-step form: columns `module`, `module_name`,
`path`, `ko`. -/
structure ModuleRow where
  module : String
  module_name : String
  path : String
  ko : String

/-- A networkx `DiGraph` as `build_module_net` uses it: graph attributes
`num_steps`, `module_id`, `module_name`; nodes in insertion order; the
`kos` node attribute as an association list (a node absent from `kosAttr`
has no `kos` attribute); directed edges in insertion order. -/
structure ModuleNet where
  num_steps : Int
  module_id : String
  module_name : String
  nodeList : List String
  kosAttr : List (String × List String)
  edges : List (String × String)

/-- Lookup of the `kos` node attribute. -/
def lookupKos : List (String × List String) → String → Option (List String)
  | [], _ => none
  | (k, v) :: rest, n => if k = n then some v else lookupKos rest n

/-- networkx: adding an edge inserts missing endpoints as attribute-free
nodes; an existing node keeps its place. -/
def addPlainNode (net : ModuleNet) (n : String) : ModuleNet :=
  if net.nodeList.contains n then net
  else { net with nodeList := net.nodeList ++ [n] }

/-- networkx `add_node(n, kos=ks)`. -/
def addNodeK (net : ModuleNet) (n : String) (ks : List String) : ModuleNet :=
  { addPlainNode net n with kosAttr := (net.kosAttr.filter (fun e => e.1 != n)) ++ [(n, ks)] }

/-- networkx `add_edge(u, v)` (no parallel edges in a `DiGraph`). -/
def addEdge (net : ModuleNet) (u v : String) : ModuleNet :=
  let net1 := addPlainNode net u
  let net2 := addPlainNode net1 v
  if net2.edges.contains (u, v) then net2
  else { net2 with edges := net2.edges ++ [(u, v)] }

/-- `int(path.split(',')[0])`, the step index a path departs from. -/
def firstIdx (p : String) : Int := (parseIntPy ((pySplit p ',').headD "")).getD 0

/-- Python `max` of a list of integers (`d` stands in for the error on an
empty list, which well-formed module tables never produce). -/
def listMaxD (d : Int) : List Int → Int
  | [] => d
  | h :: t => t.foldl max h

/-- Body of the `for module_path, frame in module_df.groupby('path')` loop of
`build_module_net`. The inbound-edge test is the source's
`module_path[0] == 0`: the one-character string `module_path[0]` compared
with the integer `0` via Python `==`. -/
def addPathNode (df : List ModuleRow) (ns : Int) (net : ModuleNet) (p : String) : ModuleNet :=
  let net1 := addNodeK net p ((df.filter (fun r => r.path == p)).map (fun r => r.ko)).dedup
  let idx := firstIdx p
  let net2 :=
    if pyEq (PyVal.vstr (pyHeadChar p)) (PyVal.vint 0)
    then addEdge net1 "begin" p
    else addEdge net1 ("end_step_" ++ intToStr (idx - 1)) p
  if idx = ns then addEdge net2 p "end"
  else addEdge net2 p ("end_step_" ++ intToStr idx)

/-- `build_module_net(module_df)`: `num_steps` is the maximum first path
index; groups are visited in sorted path order (pandas groupby). -/
def build_module_net (df : List ModuleRow) : ModuleNet :=
  let pathsSorted := List.insertionSort strLe (df.map (fun r => r.path)).dedup
  let ns := listMaxD 0 (pathsSorted.map firstIdx)
  let net0 : ModuleNet :=
    { num_steps := ns
      module_id := ((df.map (fun r => r.module)).headD "")
      module_name := ((df.map (fun r => r.module_name)).headD "")
      nodeList := []
      kosAttr := []
      edges := [] }
  pathsSorted.foldl (addPathNode df ns) net0

/-- A path descriptor token that Python `int` accepts; the spec restricts
descriptors to comma-separated (non-negative) integers. -/
def tokOk (t : String) : Bool := !t.toList.isEmpty && t.toList.all Char.isDigit

/-- Well-formed module table: every path descriptor is a comma-separated
sequence of decimal integers (anything else makes `build_module_net` raise). -/
def WFdf (df : List ModuleRow) : Bool := df.all (fun r => (pySplit r.path ',').all tokOk)

/-- `data['kos'] & kos` for a path node: the stored identifiers that are
observed (list-with-set-semantics model of Python set intersection). -/
def koOverlap (ks S : List String) : List String := ks.filter (fun k => S.contains k)

/-- Whether the pruning loop of `get_module_coverage` keeps node `n`:
nodes without a `kos` attribute survive, a path node survives iff its
identifier overlap with the observed set is non-empty. -/
def keepNode (net : ModuleNet) (S : List String) (n : String) : Bool :=
  match lookupKos net.kosAttr n with
  | none => true
  | some ks => !(koOverlap ks S).isEmpty

/-- Net effect on the private copy of the removal loop: every path node with
empty overlap is deleted together with its incident edges and its
attribute entry (networkx `remove_node`). -/
def prunedNet (net : ModuleNet) (S : List String) : ModuleNet :=
  { net with
    nodeList := net.nodeList.filter (fun n => keepNode net S n)
    kosAttr := net.kosAttr.filter (fun e => keepNode net S e.1)
    edges := net.edges.filter (fun e => keepNode net S e.1 && keepNode net S e.2) }

/-- networkx `in_degree(n)`: number of edges pointing at `n`. -/
def inDegree (net : ModuleNet) (n : String) : Nat :=
  (net.edges.filter (fun e => e.2 == n)).length

/-- `int(node.split('_')[-1])`. -/
def lastTokenInt (n : String) : Int := (parseIntPy ((pySplit n '_').getLastD "")).getD 0

/-- The `missing_steps` list of `get_module_coverage`: indices of the nodes
of the pruned copy whose name contains `'end_step'` and whose in-degree
after pruning is zero, in node order. -/
def missingSteps (net : ModuleNet) (S : List String) : List Int :=
  ((prunedNet net S).nodeList.filter
      (fun n => strContainsB n "end_step" && (inDegree (prunedNet net S) n == 0))).map
    lastTokenInt

/-- `module_kos_present` before sorting: the union of the per-path overlaps,
accumulated in node order (set semantics recovered by `dedup` on sorting). -/
def matchedList (net : ModuleNet) (S : List String) : List String :=
  net.nodeList.foldl
    (fun acc n =>
      match lookupKos net.kosAttr n with
      | none => acc
      | some ks => acc ++ koOverlap ks S)
    []

/-- `sorted(module_kos_present)`: the distinct matched identifiers in
ascending string order. -/
def sortedMatched (net : ModuleNet) (S : List String) : List String :=
  List.insertionSort strLe (matchedList net S).dedup

/-- `num_steps_present = num_steps - len(missing_steps) + 1`. -/
def numStepsPresent (net : ModuleNet) (S : List String) : Int :=
  net.num_steps - (missingSteps net S).length + 1

/-- `coverage = num_steps_present / num_steps` (Python true division,
modelled exactly over the rationals). -/
def coverageFrac (net : ModuleNet) (S : List String) : ℚ :=
  (numStepsPresent net S : ℚ) / (net.num_steps : ℚ)

/-- `get_module_coverage(kos, module_net)`. `none` models the
`ZeroDivisionError` raised by the coverage division when `num_steps == 0`. -/
def get_module_coverage (net : ModuleNet) (S : List String) :
    Option (Int × Int × ℚ × List String) :=
  if net.num_steps = 0 then none
  else some (net.num_steps, numStepsPresent net S, coverageFrac net S, sortedMatched net S)

/-- `get_module_coverage` with the shared graph threaded explicitly:
`pruned_module_net = module_net.copy()` makes every `remove_node` act on
the private copy `prunedNet net S`, so the shared graph is returned
unchanged. -/
def get_module_coverage_st (net : ModuleNet) (S : List String) :
    Option (Int × Int × ℚ × List String) × ModuleNet :=
  (get_module_coverage net S, net)

/-- Following the spec's words, for comparison with the code: the step
boundaries `k` in `0 .. num_steps - 1` that have zero incoming edges after
pruning. -/
def specMissingBoundaries (net : ModuleNet) (S : List String) : List Int :=
  ((List.range net.num_steps.toNat).filter
      (fun k => inDegree (prunedNet net S) ("end_step_" ++ intToStr (k : Int)) == 0)).map
    (fun k => (k : Int))

/-- Items of the regular expression used for EC extraction:
literal characters, `.` (any character except newline), and `\d*`. -/
inductive RItem where
  | lit (c : Char)
  | anyc
  | starDigit
deriving DecidableEq

/-- The source pattern from line 31, exactly: the dots between the `\d*`
groups are UNESCAPED, so they match any character. -/
def ecPattern : List RItem :=
  [RItem.lit '[', RItem.lit 'E', RItem.lit 'C', RItem.lit ':',
   RItem.starDigit, RItem.anyc, RItem.starDigit, RItem.anyc,
   RItem.starDigit, RItem.anyc, RItem.starDigit, RItem.lit ']']

/-- Backtracking matcher for the pattern at the head of `s` (Python `re`
semantics: `\d*` is greedy, longest first). Returns the unmatched suffix.
Fuel is one more than the pattern length, which every call chain respects. -/
def matchSeqF : Nat → List RItem → List Char → Option (List Char)
  | 0, _, _ => none
  | _ + 1, [], s => some s
  | fuel + 1, RItem.lit c :: ps, s =>
      match s with
      | [] => none
      | x :: t => if x = c then matchSeqF fuel ps t else none
  | fuel + 1, RItem.anyc :: ps, s =>
      match s with
      | [] => none
      | x :: t => if x = '\n' then none else matchSeqF fuel ps t
  | fuel + 1, RItem.starDigit :: ps, s =>
      let maxd := (s.takeWhile Char.isDigit).length
      (List.range (maxd + 1)).findSome? (fun j => matchSeqF fuel ps (s.drop (maxd - j)))

/-- Match the EC pattern at the head of `s`. -/
def matchEC (s : List Char) : Option (List Char) :=
  matchSeqF (ecPattern.length + 1) ecPattern s

/-- `re.findall` scan: leftmost non-overlapping matches, resuming after each
match. Fuel bounds the number of scan steps by the string length. -/
def reFindAll : Nat → List Char → List (List Char)
  | 0, _ => []
  | fuel + 1, s =>
      match matchEC s with
      | some rest => (s.take (s.length - rest.length)) :: reFindAll fuel rest
      | none =>
          match s with
          | [] => []
          | _ :: t => reFindAll fuel t

/-- Lines 30-31 of the source for one `kegg_hit` value:
`[i[1:-1] for i in re.findall(r'\[EC:\d*.\d*.\d*.\d*\]', kegg_hit)]`. -/
def ecIdsFromHit (s : String) : List String :=
  (reFindAll (s.toList.length + 1) s.toList).map
    (fun m => String.mk (m.drop 1).dropLast)

/-- One row of the annotations table as `make_module_coverage_df` reads it:
the index entry (`gene_id`) and the `kegg_id` cell, `none` for NaN (the
source guards with `type(ko_list) is str`). -/
structure AnnotationRow where
  gene_id : String
  kegg_id : Option String

/-- `kos_to_genes[ko]`: the gene list accumulated by the defaultdict loop,
one entry per occurrence of `ko` in a row's comma-split `kegg_id`. -/
def kosToGenes (ann : List AnnotationRow) (ko : String) : List String :=
  ann.foldl
    (fun acc r =>
      match r.kegg_id with
      | none => acc
      | some ks => acc ++ (pySplit ks ',').filterMap
          (fun k => if k = ko then some r.gene_id else none))
    []

/-- `set(kos_to_genes.keys())`: every identifier occurring in some row's
`kegg_id`, deduplicated (dict keys), in first-seen order. -/
def annKos (ann : List AnnotationRow) : List String :=
  (ann.foldl
      (fun acc r =>
        match r.kegg_id with
        | none => acc
        | some ks => acc ++ pySplit ks ',')
      []).dedup

/-- The `genes_present` cell of one coverage row:
`sorted([gene for ko in module_kos for gene in kos_to_genes[ko]])`
(empty when the coverage call raises). -/
def moduleGenes (ann : List AnnotationRow) (net : ModuleNet) : List String :=
  match get_module_coverage net (annKos ann) with
  | none => []
  | some (_, _, _, mkos) =>
      List.insertionSort strLe (List.flatten (mkos.map (fun ko => kosToGenes ann ko)))

/-- One row of the rRNA table: the grouping column and the `type` column. -/
structure RRow where
  fasta : String
  rtype : String
deriving DecidableEq

/-- The three fixed ribosomal RNA labels of the source. -/
def RRNA_TYPES : List String := ["5S rRNA", "16S rRNA", "23S rRNA"]

/-- `Counter(frame['type']).get(key, 0)`: how many of the collected string
values compare Python-`==`-equal to `key`. -/
def counterGetPy (xs : List String) (key : PyVal) : Nat :=
  (xs.filter (fun x => pyEq (PyVal.vstr x) key)).length

/-- `summarize_rrnas(rrnas_df)`: one output row per label in `RRNA_TYPES`,
with the per-genome columns in sorted genome order. The count cell uses
the source's lookup key: the builtin `type`, not the row's label. -/
def summarize_rrnas (df : List RRow) : List (String × String × List Nat) :=
  let genomes := List.insertionSort strLe ((df.map (fun r => r.fasta)).dedup)
  RRNA_TYPES.map
    (fun rt =>
      (rt, ((pySplit rt ' ').headD "") ++ " ribosomal RNA gene",
        genomes.map
          (fun g =>
            counterGetPy ((df.filter (fun r => r.fasta == g)).map (fun r => r.rtype))
              PyVal.vtype)))

/-- Two-path module table: one alternative at step 0 satisfied by `K1`, one
at step 1 satisfied by `K2` (`num_steps = 1`). -/
def dfAB : List ModuleRow :=
  [⟨"M1", "module one", "0", "K1"⟩, ⟨"M1", "module one", "1", "K2"⟩]

/-- The spec scenario's module table: paths at steps 0, 1, 2, 3 carrying the
disjoint single identifiers A, B, C, D (`num_steps = 3`). -/
def dfFour : List ModuleRow :=
  [⟨"M2", "module two", "0", "A"⟩, ⟨"M2", "module two", "1", "B"⟩,
   ⟨"M2", "module two", "2", "C"⟩, ⟨"M2", "module two", "3", "D"⟩]

/-- The spec scenario's observed identifier set. -/
def obsAC : List String := ["A", "C"]

/-- A one-element observed set used to witness monotonicity. -/
def obsK1 : List String := ["K1"]

/-- A genome whose single gene carries two pathway identifiers. -/
def annG : List AnnotationRow := [⟨"g1", some "K1,K2"⟩]

/-- A one-row rRNA table. -/
def rrnaEx : List RRow := [⟨"g1", "16S rRNA"⟩]

/-! ### Order lemmas for the string comparison used by `sorted` -/

theorem charLeB_le {a b : Char} (h : charLeB a b = true) : a ≤ b := of_decide_eq_true h

theorem le_charLeB {a b : Char} (h : a ≤ b) : charLeB a b = true := decide_eq_true h

theorem charListLeB_trans : ∀ {a b c : List Char},
    charListLeB a b = true → charListLeB b c = true → charListLeB a c = true
  | [], _, _, _, _ => rfl
  | _ :: _, [], _, hab, _ => by simp [charListLeB] at hab
  | _ :: _, _ :: _, [], _, hbc => by simp [charListLeB] at hbc
  | x :: xs, y :: ys, z :: zs, hab, hbc => by
      by_cases hxy : x = y
      · subst hxy
        by_cases hxz : x = z
        · subst hxz
          simp only [charListLeB, if_pos rfl] at hab hbc ⊢
          exact charListLeB_trans hab hbc
        · simp only [charListLeB, if_pos rfl, if_neg hxz] at hab hbc ⊢
          exact hbc
      · by_cases hyz : y = z
        · subst hyz
          simp only [charListLeB, if_neg hxy] at hab ⊢
          exact hab
        · simp only [charListLeB, if_neg hxy, if_neg hyz] at hab hbc
          by_cases hxz : x = z
          · subst hxz
            exact absurd (le_antisymm (charLeB_le hab) (charLeB_le hbc)) hxy
          · simp only [charListLeB, if_neg hxz]
            exact le_charLeB (le_trans (charLeB_le hab) (charLeB_le hbc))

theorem charListLeB_total : ∀ (a b : List Char),
    charListLeB a b = true ∨ charListLeB b a = true
  | [], _ => Or.inl rfl
  | _ :: _, [] => Or.inr rfl
  | x :: xs, y :: ys => by
      by_cases hxy : x = y
      · subst hxy
        simp only [charListLeB, if_pos rfl]
        exact charListLeB_total xs ys
      · have hyx : ¬ y = x := fun h => hxy h.symm
        simp only [charListLeB, if_neg hxy, if_neg hyx]
        rcases le_total x y with h | h
        · exact Or.inl (le_charLeB h)
        · exact Or.inr (le_charLeB h)

instance : IsTrans String strLe :=
  ⟨fun _ _ _ hab hbc => charListLeB_trans hab hbc⟩

instance : IsTotal String strLe :=
  ⟨fun a b => charListLeB_total a.toList b.toList⟩

/-! ### Generic list lemmas -/

theorem length_filter_mono {α : Type} {p q : α → Bool} :
    ∀ l : List α, (∀ a ∈ l, p a = true → q a = true) →
      (l.filter p).length ≤ (l.filter q).length
  | [], _ => Nat.le_refl _
  | a :: t, h => by
      have ht : ∀ x ∈ t, p x = true → q x = true :=
        fun x hx => h x (List.mem_cons_of_mem a hx)
      by_cases hp : p a = true
      · rw [List.filter_cons_of_pos hp, List.filter_cons_of_pos (h a (List.mem_cons_self a t) hp)]
        exact Nat.succ_le_succ (length_filter_mono t ht)
      · rw [List.filter_cons_of_neg hp]
        by_cases hq : q a = true
        · rw [List.filter_cons_of_pos hq]
          exact Nat.le_trans (length_filter_mono t ht) (Nat.le_succ _)
        · rw [List.filter_cons_of_neg hq]
          exact length_filter_mono t ht

theorem lookupKos_mem : ∀ {l : List (String × List String)} {n : String} {v : List String},
    lookupKos l n = some v → (n, v) ∈ l
  | [], _, _, h => by simp [lookupKos] at h
  | (k, w) :: rest, n, v, h => by
      by_cases hk : k = n
      · subst hk
        have h2 : w = v := by simpa [lookupKos] using h
        subst h2
        exact List.mem_cons_self _ _
      · simp only [lookupKos, if_neg hk] at h
        exact List.mem_cons_of_mem _ (lookupKos_mem h)

theorem isPrefixOfSubset : ∀ {ps l : List Char}, ps.isPrefixOf l = true → ∀ c ∈ ps, c ∈ l
  | [], _, _, c, hc => absurd hc (List.not_mem_nil c)
  | _ :: _, [], h, _, _ => by simp [List.isPrefixOf] at h
  | a :: ps, b :: l, h, c, hc => by
      rw [List.isPrefixOf_cons₂] at h
      simp only [Bool.and_eq_true, beq_iff_eq] at h
      obtain ⟨rfl, h2⟩ := h
      rcases List.mem_cons.mp hc with rfl | hc'
      · exact List.mem_cons_self _ _
      · exact List.mem_cons_of_mem _ (isPrefixOfSubset h2 c hc')

theorem isInfixList_subset : ∀ {pat l : List Char},
    isInfixList pat l = true → ∀ c ∈ pat, c ∈ l
  | pat, [], h, c, hc => by
      simp only [isInfixList] at h
      rw [List.isEmpty_iff.mp h] at hc
      exact absurd hc (List.not_mem_nil c)
  | pat, x :: t, h, c, hc => by
      simp only [isInfixList, Bool.or_eq_true] at h
      rcases h with h | h
      · exact isPrefixOfSubset h c hc
      · exact List.mem_cons_of_mem x (isInfixList_subset h c hc)

theorem splitListOn_ne_nil (sep : Char) : ∀ l : List Char, splitListOn sep l ≠ []
  | [] => by simp [splitListOn]
  | c :: rest => by
      by_cases hc : c = sep
      · simp [splitListOn, hc]
      · cases hr : splitListOn sep rest with
        | nil => exact absurd hr (splitListOn_ne_nil sep rest)
        | cons h t => simp [splitListOn, hc, hr]

theorem splitListOn_chars (sep : Char) : ∀ (l : List Char) (c : Char), c ∈ l →
    c = sep ∨ ∃ tl, tl ∈ splitListOn sep l ∧ c ∈ tl
  | [], c, hc => absurd hc (List.not_mem_nil c)
  | a :: rest, c, hc => by
      by_cases ha : a = sep
      · rcases List.mem_cons.mp hc with rfl | hc'
        · exact Or.inl ha
        · rcases splitListOn_chars sep rest c hc' with h1 | ⟨tl, htl, hctl⟩
          · exact Or.inl h1
          · refine Or.inr ⟨tl, ?_, hctl⟩
            simp only [splitListOn, if_pos ha]
            exact List.mem_cons_of_mem _ htl
      · cases hr : splitListOn sep rest with
        | nil => exact absurd hr (splitListOn_ne_nil sep rest)
        | cons hh tt =>
          rcases List.mem_cons.mp hc with rfl | hc'
          · refine Or.inr ⟨c :: hh, ?_, List.mem_cons_self _ _⟩
            simp [splitListOn, ha, hr]
          · rcases splitListOn_chars sep rest c hc' with h1 | ⟨tl, htl, hctl⟩
            · exact Or.inl h1
            · rw [hr] at htl
              rcases List.mem_cons.mp htl with rfl | htlt
              · refine Or.inr ⟨a :: tl, ?_, List.mem_cons_of_mem _ hctl⟩
                simp [splitListOn, ha, hr]
              · refine Or.inr ⟨tl, ?_, hctl⟩
                simp only [splitListOn, if_neg ha, hr]
                exact List.mem_cons_of_mem _ htlt

/-! ### Pruning monotonicity and the builder invariant -/

theorem keepNode_mono {net : ModuleNet} {S T : List String} (hST : S ⊆ T) {n : String}
    (h : keepNode net S n = true) : keepNode net T n = true := by
  cases hk : lookupKos net.kosAttr n with
  | none => simp [keepNode, hk]
  | some ks =>
      simp only [keepNode, hk] at h ⊢
      cases hE : (koOverlap ks S).isEmpty with
      | true => rw [hE] at h; simp at h
      | false =>
          obtain ⟨x, hx⟩ := List.isEmpty_eq_false_iff_exists_mem.mp hE
          have hx2 := List.mem_filter.mp hx
          have hxT : x ∈ T := hST (List.elem_iff.mp hx2.2)
          have hxKT : x ∈ koOverlap ks T :=
            List.mem_filter.mpr ⟨hx2.1, List.elem_iff.mpr hxT⟩
          have hTe : (koOverlap ks T).isEmpty = false :=
            List.isEmpty_eq_false_iff_exists_mem.mpr ⟨x, hxKT⟩
          rw [hTe]
          rfl

theorem inDegree_pruned_mono {net : ModuleNet} {S T : List String} (hST : S ⊆ T) (n : String) :
    inDegree (prunedNet net S) n ≤ inDegree (prunedNet net T) n := by
  have hSe : (prunedNet net S).edges =
      net.edges.filter (fun e => keepNode net S e.1 && keepNode net S e.2) := rfl
  have hTe : (prunedNet net T).edges =
      net.edges.filter (fun e => keepNode net T e.1 && keepNode net T e.2) := rfl
  unfold inDegree
  rw [hSe, hTe, List.filter_filter, List.filter_filter]
  apply length_filter_mono
  intro e _ h
  simp only [Bool.and_eq_true] at h ⊢
  exact ⟨h.1, keepNode_mono hST h.2.1, keepNode_mono hST h.2.2⟩

theorem missingSteps_length_mono {net : ModuleNet} {S T : List String} (hST : S ⊆ T)
    (hinv : ∀ e ∈ net.kosAttr, strContainsB e.1 "end_step" = false) :
    (missingSteps net T).length ≤ (missingSteps net S).length := by
  unfold missingSteps
  rw [List.length_map, List.length_map]
  have hTn : (prunedNet net T).nodeList =
      net.nodeList.filter (fun n => keepNode net T n) := rfl
  have hSn : (prunedNet net S).nodeList =
      net.nodeList.filter (fun n => keepNode net S n) := rfl
  rw [hTn, hSn, List.filter_filter, List.filter_filter]
  apply length_filter_mono
  intro n hn h
  simp only [Bool.and_eq_true] at h
  obtain ⟨⟨hcont, hdegT⟩, hkT⟩ := h
  have hlk : lookupKos net.kosAttr n = none := by
    cases hk : lookupKos net.kosAttr n with
    | none => rfl
    | some ks =>
        have h2 : strContainsB n "end_step" = false := hinv (n, ks) (lookupKos_mem hk)
        rw [h2] at hcont
        exact absurd hcont (by decide)
  have hkS : keepNode net S n = true := by simp [keepNode, hlk]
  have hdT : inDegree (prunedNet net T) n = 0 := beq_iff_eq.mp hdegT
  have hdS : inDegree (prunedNet net S) n = 0 :=
    Nat.le_zero.mp (hdT ▸ inDegree_pruned_mono hST n)
  simp only [Bool.and_eq_true]
  exact ⟨⟨hcont, beq_iff_eq.mpr hdS⟩, hkS⟩

theorem wfPath_no_endstep {p : String} (h : (pySplit p ',').all tokOk = true) :
    strContainsB p "end_step" = false := by
  cases hcb : strContainsB p "end_step" with
  | false => rfl
  | true =>
      exfalso
      have he : 'e' ∈ p.toList := isInfixList_subset hcb 'e' (by decide)
      rcases splitListOn_chars ',' p.toList 'e' he with h1 | ⟨tl, htl, hctl⟩
      · exact absurd h1 (by decide)
      · have hmt : String.mk tl ∈ pySplit p ',' := List.mem_map_of_mem _ htl
        have htok : tokOk (String.mk tl) = true := List.all_eq_true.mp h _ hmt
        simp only [tokOk, Bool.and_eq_true] at htok
        have hdigs : Char.isDigit 'e' = true :=
          List.all_eq_true.mp htok.2 'e' hctl
        exact absurd hdigs (by decide)

theorem addPlainNode_kosAttr (net : ModuleNet) (n : String) :
    (addPlainNode net n).kosAttr = net.kosAttr := by
  unfold addPlainNode
  split <;> rfl

theorem addEdge_kosAttr (net : ModuleNet) (u v : String) :
    (addEdge net u v).kosAttr = net.kosAttr := by
  unfold addEdge
  dsimp only
  split <;> simp [addPlainNode_kosAttr]

theorem addPathNode_kosAttr (df : List ModuleRow) (ns : Int) (net : ModuleNet) (p : String) :
    (addPathNode df ns net p).kosAttr =
      (net.kosAttr.filter (fun e => e.1 != p)) ++
        [(p, ((df.filter (fun r => r.path == p)).map (fun r => r.ko)).dedup)] := by
  unfold addPathNode
  by_cases h1 : pyEq (PyVal.vstr (pyHeadChar p)) (PyVal.vint 0) = true <;>
    by_cases h2 : firstIdx p = ns <;>
      simp [h1, h2, addEdge_kosAttr, addNodeK, addPlainNode_kosAttr]

theorem foldl_addPathNode_inv (df : List ModuleRow) (ns : Int) :
    ∀ (ps : List String) (net : ModuleNet),
      (∀ e ∈ net.kosAttr, strContainsB e.1 "end_step" = false) →
      (∀ p ∈ ps, strContainsB p "end_step" = false) →
      ∀ e ∈ (ps.foldl (addPathNode df ns) net).kosAttr, strContainsB e.1 "end_step" = false
  | [], _, h0, _, e, he => h0 e he
  | p :: pt, net, h0, hps, e, he => by
      refine foldl_addPathNode_inv df ns pt (addPathNode df ns net p) ?_ ?_ e he
      · intro x hx
        rw [addPathNode_kosAttr] at hx
        rcases List.mem_append.mp hx with hx | hx
        · exact h0 x (List.mem_of_mem_filter hx)
        · rw [List.mem_singleton.mp hx]
          exact hps p (List.mem_cons_self p pt)
      · intro q hq
        exact hps q (List.mem_cons_of_mem p hq)

theorem build_module_net_inv {df : List ModuleRow} (hwf : WFdf df = true) :
    ∀ e ∈ (build_module_net df).kosAttr, strContainsB e.1 "end_step" = false := by
  have hps : ∀ p ∈ List.insertionSort strLe (df.map (fun r => r.path)).dedup,
      strContainsB p "end_step" = false := by
    intro p hp
    have hp2 : p ∈ (df.map (fun r => r.path)).dedup :=
      (List.perm_insertionSort strLe _).subset hp
    have hp3 : p ∈ df.map (fun r => r.path) := List.mem_dedup.mp hp2
    rcases List.mem_map.mp hp3 with ⟨r, hr, rfl⟩
    exact wfPath_no_endstep (List.all_eq_true.mp hwf r hr)
  exact foldl_addPathNode_inv df _ _ _ (fun e he => absurd he (List.not_mem_nil e)) hps

/-! ### Claim theorems -/

/-- C1: the claim says a step-0 path gets its inbound edge from `begin` and
that `begin` has out-degree at least 1. Evaluating `build_module_net` on the
two-path table shows the code instead wires the step-0 path from the spurious
boundary `end_step_-1` and never creates `begin`: the guard
`module_path[0] == 0` compares a one-character string with the integer 0 and
is always false. Path in-degree/out-degree 1 and the `end` edge do hold. -/
theorem build_module_net_begin_dead :
    (build_module_net dfAB).nodeList = ["0", "end_step_-1", "end_step_0", "1", "end"] ∧
      (build_module_net dfAB).edges =
        [("end_step_-1", "0"), ("0", "end_step_0"), ("end_step_0", "1"), ("1", "end")] ∧
      ("begin", "0") ∉ (build_module_net dfAB).edges ∧
      "begin" ∉ (build_module_net dfAB).nodeList := by
  refine ⟨by decide, by decide, by decide, by decide⟩

/-- C2: on the spec scenario (paths at steps 0,1,2,3 with identifiers
A,B,C,D, observed set {A,C}) the code returns missing boundaries [-1, 1]
(the spurious `end_step_-1` is always in-degree 0), `num_steps_present = 2`
and coverage 2/3, not the claimed [1], 3 and 1.0; the matched identifiers
are [A, C] as claimed. -/
theorem spec_scenario_coverage :
    (build_module_net dfFour).num_steps = 3 ∧
      missingSteps (build_module_net dfFour) obsAC = [-1, 1] ∧
      numStepsPresent (build_module_net dfFour) obsAC = 2 ∧
      coverageFrac (build_module_net dfFour) obsAC = 2 / 3 ∧
      sortedMatched (build_module_net dfFour) obsAC = ["A", "C"] := by
  have h1 : numStepsPresent (build_module_net dfFour) obsAC = 2 := by decide
  have h2 : (build_module_net dfFour).num_steps = 3 := by decide
  refine ⟨by decide, by decide, h1, ?_, by decide⟩
  unfold coverageFrac
  rw [h1, h2]
  norm_num

/-- C3: the claim's formula `num_steps_present = num_steps - |missing
boundaries| + 1` fails, because the code's missing list also counts the
spurious boundary `end_step_-1`: on the scenario graph the boundaries with
index in 0..num_steps-1 that have zero incoming edges after pruning are
exactly [1], yet the code returns num_steps_present = 2, not 3 - 1 + 1. -/
theorem missing_formula_mismatch :
    specMissingBoundaries (build_module_net dfFour) obsAC = [1] ∧
      numStepsPresent (build_module_net dfFour) obsAC ≠
        (build_module_net dfFour).num_steps -
          ((specMissingBoundaries (build_module_net dfFour) obsAC).length : Int) + 1 := by
  refine ⟨by decide, by decide⟩

/-- C4: with an observed set hitting no path, the claim expects
`num_steps_present = 1`; evaluating the engine on the two-path module graph
with the empty observed set gives missing list [-1, 0] and
`num_steps_present = 0`, because the spurious boundary `end_step_-1` is also
counted missing. -/
theorem zero_observed_steps_present :
    get_module_coverage (build_module_net dfAB) [] =
        some (1, 0, coverageFrac (build_module_net dfAB) [], []) ∧
      numStepsPresent (build_module_net dfAB) [] = 0 ∧
      missingSteps (build_module_net dfAB) [] = [-1, 0] := by
  refine ⟨rfl, by decide, by decide⟩

/-- C5: the Coverage Engine is monotone in the observed set. For every
well-formed module table and observed sets `S ⊆ T`, `num_steps_present` does
not decrease, and neither does the coverage fraction whenever the division
is defined (`num_steps ≥ 1`). -/
theorem module_coverage_monotone (df : List ModuleRow) (S T : List String)
    (hwf : WFdf df = true) (hST : S ⊆ T) :
    numStepsPresent (build_module_net df) S ≤ numStepsPresent (build_module_net df) T ∧
      (1 ≤ (build_module_net df).num_steps →
        coverageFrac (build_module_net df) S ≤ coverageFrac (build_module_net df) T) := by
  have hinv := build_module_net_inv hwf
  have hlen := missingSteps_length_mono hST hinv
  have hpres : numStepsPresent (build_module_net df) S ≤
      numStepsPresent (build_module_net df) T := by
    unfold numStepsPresent
    omega
  refine ⟨hpres, fun hpos => ?_⟩
  unfold coverageFrac
  have hden : (0 : ℚ) < ((build_module_net df).num_steps : ℚ) := by
    have h0 : (0 : ℤ) < (build_module_net df).num_steps := by omega
    exact_mod_cast h0
  rw [div_le_div_iff_of_pos_right hden]
  exact_mod_cast hpres

/-- Witness for C5 at a concrete module table and a concrete pair of
observed sets. -/
theorem module_coverage_monotone_witness :
    WFdf dfAB = true ∧ ([] : List String) ⊆ obsK1 ∧
      (numStepsPresent (build_module_net dfAB) [] ≤
          numStepsPresent (build_module_net dfAB) obsK1 ∧
        (1 ≤ (build_module_net dfAB).num_steps →
          coverageFrac (build_module_net dfAB) [] ≤
            coverageFrac (build_module_net dfAB) obsK1)) :=
  ⟨by decide, List.nil_subset _,
    module_coverage_monotone dfAB [] obsK1 (by decide) (List.nil_subset _)⟩

/-- C6: a coverage query leaves the shared graph's node list, edge list and
node attributes unchanged (all removals act on the private copy), so a
second run with the same inputs returns the identical output. -/
theorem coverage_query_frame (net : ModuleNet) (S : List String) :
    (get_module_coverage_st net S).2.nodeList = net.nodeList ∧
      (get_module_coverage_st net S).2.edges = net.edges ∧
      (get_module_coverage_st net S).2.kosAttr = net.kosAttr ∧
      get_module_coverage_st ((get_module_coverage_st net S).2) S =
        get_module_coverage_st net S :=
  ⟨rfl, rfl, rfl, rfl⟩

/-- C7: the extractor does return `EC:1.1.1.1` (brackets stripped) on the
spec's example, but the claim that only all-digit segments are emitted is
false: the unescaped dots and `\d*` of the source pattern also accept
`[EC:1a2b3c4]` and `[EC:...]`, which emit `EC:1a2b3c4` and `EC:...`. -/
theorem ec_extractor_eval :
    ecIdsFromHit "hit [EC:1.1.1.1] more text" = ["EC:1.1.1.1"] ∧
      ecIdsFromHit "hit [EC:1a2b3c4] more text" = ["EC:1a2b3c4"] ∧
      ecIdsFromHit "hit [EC:...] more text" = ["EC:..."] := by
  refine ⟨by decide, by decide, by decide⟩

/-- C8 counterexample: a single gene carrying two pathway identifiers that
both match the module makes the emitted gene list `["g1", "g1"]`, which is
not duplicate-free, refuting the claimed de-duplication. -/
theorem moduleGenes_dup :
    moduleGenes annG (build_module_net dfAB) = ["g1", "g1"] ∧
      ¬ (moduleGenes annG (build_module_net dfAB)).Nodup := by
  refine ⟨by decide, by decide⟩

/-- C8 amended: for every annotation table and module graph the emitted gene
list is sorted (in Python string order); it is not de-duplicated. -/
theorem moduleGenes_sorted (ann : List AnnotationRow) (net : ModuleNet) :
    List.Sorted strLe (moduleGenes ann net) := by
  unfold moduleGenes
  cases h : get_module_coverage net (annKos ann) with
  | none => simp
  | some r =>
      obtain ⟨a, b, c, mkos⟩ := r
      exact List.sorted_insertionSort strLe _

/-- C9: the Coverage Engine's division by `num_steps` fails exactly when
`num_steps = 0`; for any other module graph the computation completes. -/
theorem get_module_coverage_none_iff (net : ModuleNet) (S : List String) :
    get_module_coverage net S = none ↔ net.num_steps = 0 := by
  unfold get_module_coverage
  split <;> simp_all

/-- Witness for C9 at a concrete module graph with `num_steps = 1`. -/
theorem get_module_coverage_none_iff_witness :
    ¬ (build_module_net dfAB).num_steps = 0 ∧
      get_module_coverage (build_module_net dfAB) obsK1 ≠ none :=
  ⟨by decide,
    fun h =>
      (by decide : ¬ (build_module_net dfAB).num_steps = 0)
        ((get_module_coverage_none_iff (build_module_net dfAB) obsK1).mp h)⟩

/-- C10: for every non-empty rRNA table, every per-genome count cell of
`summarize_rrnas` is 0, because the counter is keyed on the Python builtin
`type` rather than the row's rRNA label. -/
theorem summarize_rrnas_counts_zero (df : List RRow) (hne : df ≠ []) :
    ∀ row ∈ summarize_rrnas df, ∀ c ∈ row.2.2, c = 0 := by
  intro row hrow c hc
  simp only [summarize_rrnas] at hrow
  rcases List.mem_map.mp hrow with ⟨rt, hrt, rfl⟩
  simp only at hc
  rcases List.mem_map.mp hc with ⟨g, hg, rfl⟩
  have hz : (fun x => pyEq (PyVal.vstr x) PyVal.vtype) = fun _ : String => false := rfl
  simp [counterGetPy, hz]

/-- Witness for C10 at a concrete one-row rRNA table. -/
theorem summarize_rrnas_counts_zero_witness :
    rrnaEx ≠ [] ∧ ∀ row ∈ summarize_rrnas rrnaEx, ∀ c ∈ row.2.2, c = 0 :=
  ⟨by decide, summarize_rrnas_counts_zero rrnaEx (by decide)⟩
